import Mathlib

/-!
Shallow embedding of `src/fidic_parser.py` (FIDIC Red Book 1999 clause parser).

Modelling conventions:
* Python `str` values are modelled as `List Char` (`Str`); Python string
  slicing/indexing becomes `List.take`/`List.drop`.
* The regular expressions in the source are fixed alternations of literals with
  `\b`, `\s+`, `[\d.]+`, `(.+?)` and `[.!?]` pieces; each compiled pattern is
  embedded as a dedicated scanning function with Python `re` semantics
  (leftmost match, ordered alternation, greedy/lazy repetition as analysed per
  pattern).  Character classes `\w`/`\s` and case folding are modelled at the
  ASCII level, which coincides with CPython's behaviour on the ASCII patterns
  and inputs considered here.
* CPython enumerates a `set` of strings in an order that depends on the
  per-process hash seed; `list(set(xs))` is therefore modelled relationally:
  any duplicate-free list with the same membership as `xs` is an admissible
  enumeration (`PyEnumOf`), and a whole-run enumeration choice is a function
  satisfying `PySetEnum`.  `sorted(list(set(xs)))` is order-independent (the
  sorted enumeration of a finite set of distinct strings is unique), so it is
  embedded directly as insertion sort of `xs.dedup`; lemma
  `pySortedSet_canonical` justifies this.
-/

namespace Fidic

abbrev Str := List Char

/-- Convert a Lean string literal to the `List Char` representation. -/
def S (s : String) : Str := s.data

/-- Python `\s` (ASCII part): space, tab, newline, carriage return,
form feed, vertical tab. -/
def isWs (c : Char) : Bool :=
  c = ' ' || c = '\t' || c = '\n' || c = '\r' || c = '\x0b' || c = '\x0c'

/-- Python `\w` (ASCII part): letters, digits, underscore. -/
def isWordChar (c : Char) : Bool :=
  c.isAlpha || c.isDigit || c = '_'

/-- ASCII lower-casing, as used by `re.IGNORECASE` and `str.lower()` on the
ASCII texts considered here. -/
def lowerC (c : Char) : Char := c.toLower

/-- Python string comparison (`<=`): lexicographic by code point. -/
def pyLe : Str → Str → Bool
  | [], _ => true
  | _ :: _, [] => false
  | a :: as, b :: bs => if a = b then pyLe as bs else decide (a < b)

/-- The relation form of `pyLe`, for use with `List.insertionSort`. -/
def PLe (a b : Str) : Prop := pyLe a b = true

instance : DecidableRel PLe := fun a b => by unfold PLe; infer_instance

theorem pyLe_refl (a : Str) : pyLe a a = true := by
  induction a with
  | nil => rfl
  | cons c cs ih => simp [pyLe, ih]

theorem pyLe_total (a b : Str) : pyLe a b = true ∨ pyLe b a = true := by
  induction a generalizing b with
  | nil => left; rfl
  | cons c cs ih =>
    cases b with
    | nil => right; rfl
    | cons d ds =>
      by_cases hcd : c = d
      · subst hcd
        rcases ih ds with h | h
        · left; simp [pyLe, h]
        · right; simp [pyLe, h]
      · rcases lt_or_gt_of_ne hcd with h | h
        · left; simp [pyLe, hcd, h]
        · right; simp [pyLe, Ne.symm hcd, h, not_lt_of_gt h]

theorem pyLe_antisymm {a b : Str} (h₁ : pyLe a b = true) (h₂ : pyLe b a = true) :
    a = b := by
  induction a generalizing b with
  | nil =>
    cases b with
    | nil => rfl
    | cons d ds => simp [pyLe] at h₂
  | cons c cs ih =>
    cases b with
    | nil => simp [pyLe] at h₁
    | cons d ds =>
      by_cases hcd : c = d
      · subst hcd
        simp only [pyLe, if_pos rfl] at h₁ h₂
        exact congrArg (c :: ·) (ih h₁ h₂)
      · simp only [pyLe, if_neg hcd, if_neg (Ne.symm hcd), decide_eq_true_eq] at h₁ h₂
        exact absurd h₂ (not_lt_of_gt h₁)

theorem pyLe_trans {a b c : Str} (h₁ : pyLe a b = true) (h₂ : pyLe b c = true) :
    pyLe a c = true := by
  induction a generalizing b c with
  | nil => rfl
  | cons x xs ih =>
    cases b with
    | nil => simp [pyLe] at h₁
    | cons y ys =>
      cases c with
      | nil => simp [pyLe] at h₂
      | cons z zs =>
        by_cases hxy : x = y <;> by_cases hyz : y = z
        · subst hxy; subst hyz
          simp only [pyLe, if_pos rfl] at h₁ h₂ ⊢
          exact ih h₁ h₂
        · subst hxy
          simp only [pyLe, if_neg hyz, decide_eq_true_eq] at h₂
          simp [pyLe, hyz, h₂]
        · subst hyz
          simp only [pyLe, if_neg hxy, decide_eq_true_eq] at h₁
          simp [pyLe, hxy, h₁]
        · simp only [pyLe, if_neg hxy, if_neg hyz, decide_eq_true_eq] at h₁ h₂
          have hxz : x < z := lt_trans h₁ h₂
          simp [pyLe, ne_of_lt hxz, hxz]

instance : IsTotal Str PLe := ⟨pyLe_total⟩

instance : IsTrans Str PLe := ⟨fun _ _ _ => pyLe_trans⟩

instance : IsAntisymm Str PLe := ⟨fun _ _ => pyLe_antisymm⟩

instance : IsRefl Str PLe := ⟨pyLe_refl⟩

/-- Python `sorted(list(set(xs)))` for a list of strings: the (unique) sorted
duplicate-free enumeration of the elements of `xs`. -/
def pySortedSet (xs : List Str) : List Str :=
  List.insertionSort PLe xs.dedup

/-- Any admissible CPython enumeration of `set(xs)`: a duplicate-free list with
the same membership as `xs`. -/
def PyEnumOf (xs l : List Str) : Prop :=
  l.Nodup ∧ ∀ x, x ∈ l ↔ x ∈ xs

/-- A whole-run choice of `set` enumeration order (one hash seed). -/
def PySetEnum (f : List Str → List Str) : Prop :=
  ∀ xs, PyEnumOf xs (f xs)

/-- Canonicity: `sorted(list(set(xs)))` does not depend on the enumeration order of the
set: sorting any admissible enumeration gives `pySortedSet xs`. -/
theorem pySortedSet_canonical {xs l : List Str} (h : PyEnumOf xs l) :
    List.insertionSort PLe l = pySortedSet xs := by
  have h₁ : (List.insertionSort PLe l).Perm l := List.perm_insertionSort PLe l
  have h₂ : l.Perm xs.dedup := by
    rw [List.perm_ext_iff_of_nodup h.1 xs.nodup_dedup]
    intro x
    rw [h.2 x, List.mem_dedup]
  have h₃ : (pySortedSet xs).Perm xs.dedup := List.perm_insertionSort PLe xs.dedup
  exact List.eq_of_perm_of_sorted ((h₁.trans h₂).trans h₃.symm)
    (List.sorted_insertionSort PLe l) (List.sorted_insertionSort PLe xs.dedup)

/-- One admissible `set` enumeration: first-occurrence order. -/
def pyDedupEnum (xs : List Str) : List Str := xs.dedup

/-- Another admissible `set` enumeration: reversed first-occurrence order. -/
def pyDedupEnumRev (xs : List Str) : List Str := xs.dedup.reverse

theorem pyDedupEnum_admissible : PySetEnum pyDedupEnum := by
  intro xs
  exact ⟨xs.nodup_dedup, fun x => List.mem_dedup⟩

theorem pyDedupEnumRev_admissible : PySetEnum pyDedupEnumRev := by
  intro xs
  refine ⟨List.nodup_reverse.mpr xs.nodup_dedup, fun x => ?_⟩
  rw [pyDedupEnumRev, List.mem_reverse, List.mem_dedup]

/-- Python `str.strip()`: drop whitespace from both ends. -/
def pyStrip (cs : Str) : Str :=
  ((cs.dropWhile isWs).reverse.dropWhile isWs).reverse

theorem length_dropWhile_le (p : Char → Bool) (l : Str) :
    (l.dropWhile p).length ≤ l.length :=
  (List.dropWhile_suffix p).sublist.length_le

theorem pyStrip_length_le (cs : Str) : (pyStrip cs).length ≤ cs.length := by
  unfold pyStrip
  calc ((cs.dropWhile isWs).reverse.dropWhile isWs).reverse.length
      = ((cs.dropWhile isWs).reverse.dropWhile isWs).length := List.length_reverse _
    _ ≤ (cs.dropWhile isWs).reverse.length := length_dropWhile_le _ _
    _ = (cs.dropWhile isWs).length := List.length_reverse _
    _ ≤ cs.length := length_dropWhile_le _ _

theorem mem_dropWhile {c : Char} {p : Char → Bool} {l : Str}
    (h : c ∈ l.dropWhile p) : c ∈ l :=
  (List.dropWhile_suffix p).sublist.subset h

/-- Case-sensitive literal prefix match. -/
def litCS : Str → Str → Bool
  | [], _ => true
  | _ :: _, [] => false
  | p :: ps, c :: cs => p = c && litCS ps cs

/-- Case-insensitive (ASCII) literal prefix match, as for an `re.IGNORECASE`
literal. -/
def litCI : Str → Str → Bool
  | [], _ => true
  | _ :: _, [] => false
  | p :: ps, c :: cs => lowerC p = lowerC c && litCI ps cs

theorem litCS_head_mem {a : Char} {ps l : Str} (h : litCS (a :: ps) l = true) :
    a ∈ l := by
  cases l with
  | nil => simp [litCS] at h
  | cons c cs =>
    simp only [litCS, Bool.and_eq_true, decide_eq_true_eq] at h
    exact h.1 ▸ List.mem_cons_self _ _

theorem litCI_length_le {p l : Str} (h : litCI p l = true) : p.length ≤ l.length := by
  induction p generalizing l with
  | nil => simp
  | cons a ps ih =>
    cases l with
    | nil => simp [litCI] at h
    | cons c cs =>
      simp only [litCI, Bool.and_eq_true] at h
      simpa [Nat.succ_le_succ_iff] using ih h.2

theorem litCI_take_lower {p l : Str} (h : litCI p l = true) :
    (l.take p.length).map lowerC = p.map lowerC := by
  induction p generalizing l with
  | nil => simp
  | cons a ps ih =>
    cases l with
    | nil => simp [litCI] at h
    | cons c cs =>
      simp only [litCI, Bool.and_eq_true, decide_eq_true_eq] at h
      simp [List.take, ih h.2, h.1]

/-- Word boundary `\b` to the left of position `i` in `cs`, for a pattern whose first
character is a word character: the previous character (if any) is not a word
character. -/
def boundaryBefore (cs : Str) (i : Nat) : Bool :=
  match (cs.take i).getLast? with
  | none => true
  | some c => !isWordChar c

/-- Word boundary `\b` at position `j` in `cs`, for a pattern whose last character is a word
character: the character at `j` (if any) is not a word character. -/
def boundaryAfter (cs : Str) (j : Nat) : Bool :=
  match (cs.drop j).head? with
  | none => true
  | some c => !isWordChar c

/-- Match of `\b(a₁|…|aₙ)\b` (case-sensitive alternatives, each beginning and
ending with a word character) at position `i` of `cs`. -/
def wordAltAtCS (alts : List Str) (cs : Str) (i : Nat) : Bool :=
  boundaryBefore cs i &&
    alts.any fun alt =>
      litCS alt (cs.drop i) && boundaryAfter cs (i + alt.length)

/-- Embedding of `re.search` of `\b(a₁|…|aₙ)\b` (case-sensitive): does any position match? -/
def wordSearchCS (alts : List Str) (cs : Str) : Bool :=
  (List.range (cs.length + 1)).any (wordAltAtCS alts cs)

/-- Match of `\b(a₁|…|aₙ)\b` with `re.IGNORECASE` at position `i` of `cs`. -/
def wordAltAtCI (alts : List Str) (cs : Str) (i : Nat) : Bool :=
  boundaryBefore cs i &&
    alts.any fun alt =>
      litCI alt (cs.drop i) && boundaryAfter cs (i + alt.length)

/-- Embedding of `re.search` of `\b(a₁|…|aₙ)\b` with `re.IGNORECASE`. -/
def wordSearchCI (alts : List Str) (cs : Str) : Bool :=
  (List.range (cs.length + 1)).any (wordAltAtCI alts cs)

/-- Python `word in s`: contiguous substring containment (case-sensitive). -/
def containsSub (pat cs : Str) : Bool :=
  (List.range (cs.length + 1)).any fun i => litCS pat (cs.drop i)

/-- Prepend a character to the first piece of a split result (used by the
splitters; the argument list is never empty in practice, but a singleton is
produced defensively). -/
def cons1 (c : Char) : List Str → List Str
  | [] => [[c]]
  | s :: ss => (c :: s) :: ss

/-- Python `str.split(d)` for a one-character separator `d`
(e.g. `clause_number.split('.')`). -/
def pySplitCh (d : Char) : Str → List Str
  | [] => [[]]
  | c :: rest => if c = d then [] :: pySplitCh d rest else cons1 c (pySplitCh d rest)

/-- The two-character separator `"\n\n"` of `str.split('\n\n')` starts here. -/
def paraDelim (c : Char) (rest : Str) : Bool :=
  c = '\n' && (match rest.head? with
    | some w => w = '\n'
    | none => false)

/-- Python `str.split('\n\n')`, as a structurally recursive scanner: the
first argument counts separator characters still to be skipped (a match
consumed beyond the character currently being examined). -/
def paraGo : Nat → Str → List Str
  | _, [] => [[]]
  | Nat.succ k, _ :: rest => paraGo k rest
  | 0, c :: rest =>
    if paraDelim c rest then [] :: paraGo 1 rest
    else cons1 c (paraGo 0 rest)

/-- Python `str.split('\n\n')`: split on non-overlapping occurrences of the
two-character separator, scanning left to right. -/
def pySplitPara (cs : Str) : List Str := paraGo 0 cs

/-- Head of `rest` is whitespace (the `\s` required after a terminator). -/
def headWs (rest : Str) : Bool :=
  match rest.head? with
  | some w => isWs w
  | none => false

/-- A delimiter of `re.split(r'[.!?]\s+',·)` starts here: terminator character
followed by at least one whitespace character. -/
def sentDelim (c : Char) (rest : Str) : Bool :=
  (c = '.' || c = '!' || c = '?') && headWs rest

/-- Embedding of `re.split(r'[.!?]\s+', text)` as a structurally recursive scanner: on a
delimiter, the terminator is consumed and the maximal whitespace run (its
length, computed with `takeWhile`) is skipped via the counter argument. -/
def sentGo : Nat → Str → List Str
  | _, [] => [[]]
  | Nat.succ k, _ :: rest => sentGo k rest
  | 0, c :: rest =>
    if sentDelim c rest then
      [] :: sentGo (rest.takeWhile isWs).length rest
    else
      cons1 c (sentGo 0 rest)

/-- Embedding of `re.split(r'[.!?]\s+', text)`: each delimiter is a sentence terminator
followed by a maximal nonempty whitespace run; delimiters are consumed. -/
def pySplitSent (cs : Str) : List Str := sentGo 0 cs

theorem pySplitCh_ne_nil (d : Char) (cs : Str) : pySplitCh d cs ≠ [] := by
  induction cs with
  | nil => simp [pySplitCh]
  | cons c rest ih =>
    by_cases h : c = d
    · simp [pySplitCh, h]
    · simp only [pySplitCh, if_neg h]
      cases hs : pySplitCh d rest with
      | nil => exact absurd hs ih
      | cons s ss => simp [cons1]

theorem cons1_ne_nil (c : Char) (l : List Str) : cons1 c l ≠ [] := by
  cases l <;> simp [cons1]

theorem paraGo_ne_nil (k : Nat) (cs : Str) : paraGo k cs ≠ [] := by
  induction cs generalizing k with
  | nil => simp [paraGo]
  | cons c rest ih =>
    match k with
    | Nat.succ k => exact ih k
    | 0 =>
      rw [paraGo]
      by_cases h : paraDelim c rest = true
      · rw [if_pos h]; simp
      · rw [if_neg h]; exact cons1_ne_nil _ _

theorem pySplitPara_ne_nil (cs : Str) : pySplitPara cs ≠ [] :=
  paraGo_ne_nil 0 cs

theorem sentGo_ne_nil (k : Nat) (cs : Str) : sentGo k cs ≠ [] := by
  induction cs generalizing k with
  | nil => simp [sentGo]
  | cons c rest ih =>
    match k with
    | Nat.succ k => exact ih k
    | 0 =>
      rw [sentGo]
      by_cases h : sentDelim c rest = true
      · rw [if_pos h]; simp
      · rw [if_neg h]; exact cons1_ne_nil _ _

theorem pySplitSent_ne_nil (cs : Str) : pySplitSent cs ≠ [] :=
  sentGo_ne_nil 0 cs

theorem sentGo_chars {cs : Str} (k : Nat) {s : Str} (hs : s ∈ sentGo k cs)
    {c : Char} (hc : c ∈ s) : c ∈ cs := by
  induction cs generalizing k s with
  | nil =>
    simp only [sentGo, List.mem_singleton] at hs
    subst hs
    exact absurd hc (List.not_mem_nil c)
  | cons x rest ih =>
    match k with
    | Nat.succ k => exact List.mem_cons_of_mem x (ih k hs hc)
    | 0 =>
      rw [sentGo] at hs
      by_cases h : sentDelim x rest = true
      · rw [if_pos h] at hs
        rcases List.mem_cons.mp hs with rfl | hs
        · exact absurd hc (List.not_mem_nil c)
        · exact List.mem_cons_of_mem x (ih _ hs hc)
      · rw [if_neg h] at hs
        cases hrec : sentGo 0 rest with
        | nil => exact absurd hrec (sentGo_ne_nil 0 rest)
        | cons s0 ss =>
          rw [hrec] at hs
          simp only [cons1, List.mem_cons] at hs
          rcases hs with rfl | hs
          · rcases List.mem_cons.mp hc with rfl | hc
            · exact List.mem_cons_self _ _
            · exact List.mem_cons_of_mem _
                (ih 0 (hrec ▸ List.mem_cons_self s0 ss) hc)
          · exact List.mem_cons_of_mem x
              (ih 0 (hrec ▸ List.mem_cons_of_mem s0 hs) hc)

/-- Every sentence produced by the splitter is built from characters of the
input. -/
theorem pySplitSent_chars {cs : Str} {s : Str} (hs : s ∈ pySplitSent cs)
    {c : Char} (hc : c ∈ s) : c ∈ cs :=
  sentGo_chars 0 hs hc

/-! ### Cross-reference extraction
Pattern `(Sub-)?Clause\s+([\d.]+)|clause\s+([\d.]+)` with `re.IGNORECASE`,
scanned with `finditer` (leftmost, non-overlapping). Under `IGNORECASE` the
second alternative is subsumed by the first; the optional `(Sub-)` group is
tried greedily. -/

/-- After the word `clause` has been consumed: `\s+` (at least one, maximal)
followed by `([\d.]+)` (at least one, maximal). Returns the captured number
and the remaining text. -/
def relAfter (after : Str) : Option (Str × Str) :=
  if headWs after then
    let after2 := after.dropWhile isWs
    let num := after2.takeWhile fun c => c.isDigit || c = '.'
    if num = [] then none else some (num, after2.drop num.length)
  else none

/-- Attempted match of the cross-reference pattern at the head of `cs`. -/
def relAt (cs : Str) : Option (Str × Str) :=
  if litCI (S "sub-clause") cs then relAfter (cs.drop 10)
  else if litCI (S "clause") cs then relAfter (cs.drop 6)
  else none

theorem relAfter_length {after n rest} (h : relAfter after = some (n, rest)) :
    rest.length ≤ after.length := by
  unfold relAfter at h
  by_cases hw : headWs after = true
  · rw [if_pos hw] at h
    by_cases hn : (after.dropWhile isWs).takeWhile (fun c => c.isDigit || c = '.') = []
    · rw [if_pos hn] at h; exact absurd h (by simp)
    · rw [if_neg hn] at h
      simp only [Option.some.injEq, Prod.mk.injEq] at h
      calc rest.length = ((after.dropWhile isWs).drop _).length := by rw [h.2]
        _ ≤ (after.dropWhile isWs).length := by
            rw [List.length_drop]; exact Nat.sub_le _ _
        _ ≤ after.length := length_dropWhile_le _ _
  · rw [if_neg hw] at h; exact absurd h (by simp)

theorem relAt_length {cs n rest} (h : relAt cs = some (n, rest)) :
    rest.length < cs.length := by
  unfold relAt at h
  by_cases h10 : litCI (S "sub-clause") cs = true
  · simp only [h10, if_true] at h
    have hle : 10 ≤ cs.length := by
      have := litCI_length_le h10
      simpa using this
    have := relAfter_length h
    rw [List.length_drop] at this
    omega
  · simp only [h10, if_false] at h
    by_cases h6 : litCI (S "clause") cs = true
    · simp only [h6, if_true] at h
      have hle : 6 ≤ cs.length := by
        have := litCI_length_le h6
        simpa using this
      have := relAfter_length h
      rw [List.length_drop] at this
      omega
    · simp [h6] at h

/-- Embedding of `finditer` scan of the cross-reference pattern as a structurally
recursive state machine: a match at the current position consumes
`cs.length - rest.length ≥ 1` characters (see `relAt_length`), so scanning
resumes after skipping the remainder of the match via the counter. -/
def relGo : Nat → Str → List Str
  | _, [] => []
  | Nat.succ k, _ :: rest => relGo k rest
  | 0, c :: rest =>
    match relAt (c :: rest) with
    | some (n, r) => n :: relGo ((c :: rest).length - r.length - 1) rest
    | none => relGo 0 rest

/-- Embedding of `finditer` scan of the cross-reference pattern: emit the captured clause
number of each non-overlapping match, left to right. -/
def relScan (cs : Str) : List Str := relGo 0 cs

/-! ### External-document reference extraction
Pattern `(Appendix to Tender|Specification|Drawings?|Contract|Bill of
Quantities|Schedule)` with `re.IGNORECASE`, scanned with `finditer`. The
greedy `s?` makes the third alternative try `Drawings` before `Drawing`. -/

/-- The alternatives, in the order the regex engine tries them. -/
def extAlts : List Str :=
  [S "Appendix to Tender", S "Specification", S "Drawings", S "Drawing",
   S "Contract", S "Bill of Quantities", S "Schedule"]

/-- One attempted match at the head of `cs`: first alternative that matches
case-insensitively wins; the emitted text is the actual slice of `cs`. -/
def extTry (cs : Str) : Option (Str × Str) :=
  extAlts.findSome? fun alt =>
    if litCI alt cs then some (cs.take alt.length, cs.drop alt.length) else none

theorem extTry_spec {cs m rest} (h : extTry cs = some (m, rest)) :
    ∃ alt ∈ extAlts, litCI alt cs = true ∧ m = cs.take alt.length ∧
      rest = cs.drop alt.length ∧ 1 ≤ alt.length := by
  obtain ⟨alt, hmem, halt⟩ := List.exists_of_findSome?_eq_some h
  by_cases hci : litCI alt cs = true
  · refine ⟨alt, hmem, hci, ?_⟩
    simp only [hci, if_true, Option.some.injEq, Prod.mk.injEq] at halt
    refine ⟨halt.1.symm, halt.2.symm, ?_⟩
    fin_cases hmem <;> simp [S]
  · simp [hci] at halt

theorem extTry_length {cs m rest} (h : extTry cs = some (m, rest)) :
    rest.length < cs.length := by
  obtain ⟨alt, _, hci, _, hrest, hpos⟩ := extTry_spec h
  have hle : alt.length ≤ cs.length := litCI_length_le hci
  rw [hrest, List.length_drop]
  omega

/-- Embedding of `finditer` scan of the external-reference pattern, as a structurally
recursive state machine: a match consumes `m.length ≥ 1` characters (see
`extTry_length`), so scanning resumes after skipping the rest of the match
via the counter. -/
def extGo : Nat → Str → List Str
  | _, [] => []
  | Nat.succ k, _ :: rest => extGo k rest
  | 0, c :: rest =>
    match extTry (c :: rest) with
    | some (m, _) => m :: extGo (m.length - 1) rest
    | none => extGo 0 rest

/-- Embedding of `finditer` scan of the external-reference pattern, emitting the matched
text of each non-overlapping match. -/
def extScan (cs : Str) : List Str := extGo 0 cs

/-! ### Keyword extraction: `\w+` runs and capitalised phrases -/

/-- Embedding of `re.findall(r'\w+', s)` as a structurally recursive scanner (the counter
skips the already-collected tail of a run). -/
def wordGo : Nat → Str → List Str
  | _, [] => []
  | Nat.succ k, _ :: rest => wordGo k rest
  | 0, c :: rest =>
    if isWordChar c then
      (c :: rest.takeWhile isWordChar) ::
        wordGo (rest.takeWhile isWordChar).length rest
    else wordGo 0 rest

/-- Embedding of `re.findall(r'\w+', s)`: maximal runs of word characters. -/
def wordRuns (cs : Str) : List Str := wordGo 0 cs

/-- Unit `[A-Z][a-z]+` at the head of `cs`: one upper-case letter followed by a
maximal nonempty run of lower-case letters. Returns the matched length. -/
def capUnit : Str → Option Nat
  | [] => none
  | c :: rest =>
    if c.isUpper && (match rest.head? with
        | some d => d.isLower
        | none => false) then
      some (1 + (rest.takeWhile Char.isLower).length)
    else none

/-- Successive extensions `(?:\s+[A-Z][a-z]+)*` after a completed unit, as a
structurally recursive state machine: `acc` is the cumulative offset of
already-consumed extensions and the counter skips the characters of the
extension just consumed (`w + u ≥ 1` since the whitespace run is nonempty). -/
def capExtsAux : Nat → Nat → Str → List Nat
  | _, _, [] => []
  | Nat.succ k, acc, _ :: rest => capExtsAux k acc rest
  | 0, acc, c :: rest =>
    if headWs (c :: rest) then
      let w := ((c :: rest).takeWhile isWs).length
      match capUnit ((c :: rest).dropWhile isWs) with
      | some u => (acc + w + u) :: capExtsAux (w + u - 1) (acc + w + u) rest
      | none => []
    else []

/-- Cumulative lengths of each further `ws-run + unit` after a completed
unit, greedily. -/
def capExts (cs : Str) : List Nat := capExtsAux 0 0 cs

/-- Attempted match of `\b[A-Z][a-z]+(?:\s+[A-Z][a-z]+)*\b` at the head of a
suffix (the left `\b` is the caller's responsibility). Greedy star with the
usual backtracking: if the trailing `\b` fails after the last unit, the last
repetition is dropped (its separating whitespace then witnesses the `\b`);
if no repetition can be dropped, the position does not match. -/
def capAt (cs : Str) : Option Nat :=
  match capUnit cs with
  | none => none
  | some u0 =>
    let ends := u0 :: (capExts (cs.drop u0)).map (u0 + ·)
    let e := ends.getLast (by simp)
    if boundaryAfter cs e then some e
    else
      match (ends.dropLast).getLast? with
      | some e2 => some e2
      | none => none

theorem capUnit_pos {cs u} (h : capUnit cs = some u) : 1 ≤ u := by
  cases cs with
  | nil => simp [capUnit] at h
  | cons c rest =>
    unfold capUnit at h
    by_cases hc : (c.isUpper && (match rest.head? with
        | some d => d.isLower
        | none => false)) = true
    · simp only [hc, if_true, Option.some.injEq] at h
      omega
    · simp [hc] at h

theorem capAt_pos {cs e} (h : capAt cs = some e) : 1 ≤ e := by
  unfold capAt at h
  cases hu : capUnit cs with
  | none => rw [hu] at h; simp at h
  | some u0 =>
    rw [hu] at h
    simp only at h
    have hu0 : 1 ≤ u0 := capUnit_pos hu
    have hall : ∀ x ∈ u0 :: (capExts (cs.drop u0)).map (u0 + ·), 1 ≤ x := by
      intro x hx
      rcases List.mem_cons.mp hx with hx | hx
      · omega
      · obtain ⟨y, _, hy⟩ := List.mem_map.mp hx
        omega
    by_cases hb : boundaryAfter cs ((u0 :: (capExts (cs.drop u0)).map (u0 + ·)).getLast (by simp)) = true
    · rw [if_pos hb] at h
      simp only [Option.some.injEq] at h
      exact h ▸ hall _ (List.getLast_mem _)
    · rw [if_neg hb] at h
      cases hg : ((u0 :: (capExts (cs.drop u0)).map (u0 + ·)).dropLast).getLast? with
      | none => rw [hg] at h; simp at h
      | some e2 =>
        rw [hg] at h
        simp only [Option.some.injEq] at h
        have : e2 ∈ (u0 :: (capExts (cs.drop u0)).map (u0 + ·)).dropLast :=
          List.mem_of_getLast?_eq_some hg
        exact h ▸ hall _ (List.dropLast_subset _ this)

/-- Embedding of `finditer` scan of the capitalised-phrase pattern, structurally
recursive. The Boolean records whether the current position satisfies the
left `\b` (start of text or previous character not a word character); the
counter skips the remainder of a match (`e ≥ 1`, see `capAt_pos`), the
boundary state being recomputed from each skipped character. -/
def capGo : Nat → Bool → Str → List Str
  | _, _, [] => []
  | Nat.succ k, _, c :: rest => capGo k (!isWordChar c) rest
  | 0, pb, c :: rest =>
    if pb then
      match capAt (c :: rest) with
      | some e => ((c :: rest).take e) :: capGo (e - 1) (!isWordChar c) rest
      | none => capGo 0 (!isWordChar c) rest
    else capGo 0 (!isWordChar c) rest

/-- Embedding of `re.findall(r'\b[A-Z][a-z]+(?:\s+[A-Z][a-z]+)*\b', text)`. -/
def capScan (cs : Str) : List Str := capGo 0 true cs

/-! ### Conditional-clause capture
Pattern `\b(if|unless|where|when|provided that)\b(.+?)(?:[.;]|$)` with
`re.IGNORECASE`; the whole match (`group(0)`) is taken and stripped. -/

/-- The conditional keywords, in the order the regex engine tries them. -/
def condKeywords : List Str :=
  [S "if", S "unless", S "where", S "when", S "provided that"]

/-- Lazy `(.+?)(?:[.;]|$)` continuation: having already consumed `m ≥ 1`
characters, stop at the first `.`/`;` (consumed into the match) or at `$`
(end of text, or just before a single trailing newline); `.` cannot consume a
newline. Returns the matched length. -/
def condGo : Str → Nat → Option Nat
  | [], m => some m
  | c :: rest, m =>
    if c = '.' || c = ';' then some (m + 1)
    else if c = '\n' then (if rest = [] then some m else none)
    else condGo rest (m + 1)

/-- Match of `(.+?)(?:[.;]|$)` at the head of `cs` (must consume at least one
non-newline character first). -/
def condTail : Str → Option Nat
  | [] => none
  | c :: rest => if c = '\n' then none else condGo rest 1

/-- Attempted match of the condition pattern at position `i`: first keyword
alternative that fits with word boundaries, followed by a successful lazy
tail. Returns (keyword length, tail length). -/
def condAt (cs : Str) (i : Nat) : Option (Nat × Nat) :=
  if boundaryBefore cs i then
    condKeywords.findSome? fun kw =>
      if litCI kw (cs.drop i) && boundaryAfter cs (i + kw.length) then
        match condTail (cs.drop (i + kw.length)) with
        | some m => some (kw.length, m)
        | none => none
      else none
  else none

/-- Embedding of `re.search` of the condition pattern: leftmost full match, whole matched
text (`group(0)`), stripped. -/
def findCond (cs : Str) : Option Str :=
  (List.range (cs.length + 1)).findSome? fun i =>
    match condAt cs i with
    | some (k, m) => some (pyStrip ((cs.drop i).take (k + m)))
    | none => none

/-! ### Data model (`Obligation`, `Metadata`, `ClauseNode`) -/

/-- Embedding of `Obligation` dataclass: party, action keyword, description (sentence text
stripped and truncated to 200 characters), optional condition. -/
structure Obligation where
  party : Str
  action : Str
  description : Str
  condition : Option Str
deriving DecidableEq

/-- Embedding of `Metadata` dataclass. `crossReferences` and `externalDocs` are the two
entries of the `references` dict. -/
structure Metadata where
  section_ : Str
  importance : Str
  category : Str
  hasSubClauses : Bool
  crossReferences : List Str
  externalDocs : List Str
deriving DecidableEq

/-- Embedding of `ClauseNode` dataclass. `subClauses` is populated by no code path in
`fidic_parser.py` (nothing ever constructs a nested node), so its element
type never matters; it is modelled as a list that is always empty. -/
structure ClauseNode where
  clauseId : Str
  clauseNumber : Str
  title : Str
  parentClause : Option Str
  level : Nat
  summary : Str
  fullText : Str
  obligations : List Obligation
  relatedClauses : List Str
  keywords : List Str
  parties : List Str
  metadata : Metadata
  subClauses : List Unit
deriving DecidableEq

/-! ### Annotators and classifiers -/

/-- The `party_patterns` table: party value and the `\b`-delimited
case-sensitive alternatives of its pattern, in source order. -/
def partyTable : List (Str × List Str) :=
  [(S "Employer", [S "Employer", S "Employer's"]),
   (S "Contractor", [S "Contractor", S "Contractor's"]),
   (S "Engineer", [S "Engineer", S "Engineer's"]),
   (S "Subcontractor", [S "Subcontractor", S "Subcontractor's"]),
   (S "DAB", [S "DAB", S "Dispute Adjudication Board"])]

/-- Embedding of `extract_parties`: sorted set of party values whose pattern occurs. -/
def extract_parties (text : Str) : List Str :=
  pySortedSet ((partyTable.filter fun pr => wordSearchCS pr.2 text).map (·.1))

/-- The `obligation_patterns` table keys in dict insertion order
(`shall`, `must`, `may`, `will`); each pattern is `\b(kw)\b` IGNORECASE. -/
def modalityTable : List Str := [S "shall", S "must", S "may", S "will"]

/-- First matching modality keyword of a sentence (`break` on first hit). -/
def firstMod (s : Str) : Option Str :=
  modalityTable.find? fun kw => wordSearchCI [kw] s

/-- The per-sentence body of `extract_obligations`: first modality keyword,
then parties; a sentence with no modality or no party contributes nothing;
otherwise one `Obligation` per party, sharing action, description
(`sentence.strip()[:200]`) and condition. -/
def obligationsOfSentence (s : Str) : List Obligation :=
  match firstMod s with
  | none => []
  | some act =>
    let parties := extract_parties s
    if parties = [] then []
    else
      let cond := findCond s
      parties.map fun p => ⟨p, act, (pyStrip s).take 200, cond⟩

/-- Embedding of `extract_obligations`: split into sentences, accumulate per-sentence
obligations in document order. -/
def extract_obligations (text : Str) : List Obligation :=
  ((pySplitSent text).map obligationsOfSentence).flatten

/-- Embedding of `extract_related_clauses`: sorted set of captured clause numbers. -/
def extract_related_clauses (text : Str) : List Str :=
  pySortedSet (relScan text)

/-- The stop-word set of `extract_keywords`. -/
def commonWords : List Str :=
  [S "the", S "a", S "an", S "and", S "or", S "but", S "in", S "on", S "at",
   S "to", S "for", S "of", S "by", S "s"]

/-- Embedding of `extract_keywords`: lower-cased title words minus stop words, united with
lower-cased capitalised phrases of length > 3, sorted, first 15. -/
def extract_keywords (text title : Str) : List Str :=
  let titleWords :=
    ((wordRuns title).map (List.map lowerC)).filter fun w => !commonWords.contains w
  let phrases :=
    ((capScan text).filter fun t => t.length > 3).map (List.map lowerC)
  (pySortedSet (titleWords ++ phrases)).take 15

/-- The keyword buckets of `determine_category`, in evaluation order. -/
def categoryBuckets : List (Str × List Str) :=
  [(S "financial",
    [S "payment", S "price", S "cost", S "money", S "financial", S "currency",
     S "advance"]),
   (S "legal",
    [S "law", S "dispute", S "arbitration", S "termination", S "liability",
     S "indemnit"]),
   (S "technical",
    [S "test", S "completion", S "works", S "design", S "construction",
     S "materials", S "plant"]),
   (S "procedural",
    [S "procedure", S "notice", S "claim", S "time", S "delay", S "suspension"])]

/-- Embedding of `determine_category`: first bucket with a word contained in the lowered
title or the first 500 characters of the lowered text; default
`administrative`. -/
def determine_category (title text : Str) : Str :=
  let tl := title.map lowerC
  let xl := (text.map lowerC).take 500
  match categoryBuckets.find? (fun b => b.2.any fun w =>
      containsSub w tl || containsSub w xl) with
  | some b => b.1
  | none => S "administrative"

/-- The `key_clauses` list of `determine_importance`. -/
def keyClauses : List Str :=
  [S "4", S "8", S "10", S "11", S "14", S "15", S "16", S "20"]

/-- Embedding of `determine_importance`: key top-level number ⇒ high; then by obligation
count. The indexing `clause_number.split('.')[0]` is modelled with `headD`
(the split of a string is never empty; see `determine_importanceChk`). -/
def determine_importance (clause_number : Str) (obligations : List Obligation) :
    Str :=
  if (pySplitCh '.' clause_number).headD [] ∈ keyClauses then S "high"
  else if obligations.length > 3 then S "high"
  else if obligations.length > 1 then S "medium"
  else S "low"

/-- Embedding of `determine_importance` with the Python list indexing `[0]` made explicit:
`none` models an `IndexError`. -/
def determine_importanceChk (clause_number : Str)
    (obligations : List Obligation) : Option Str :=
  match (pySplitCh '.' clause_number).head? with
  | none => none
  | some top =>
    some (if top ∈ keyClauses then S "high"
      else if obligations.length > 3 then S "high"
      else if obligations.length > 1 then S "medium"
      else S "low")

/-- The sentence-accumulation loop of `create_summary`: stop (`break`) as soon
as adding the next sentence would exceed the bound, else append the sentence
and `". "`. -/
def summaryAccum (maxLen : Nat) : List Str → Str → Str
  | [], acc => acc
  | s :: ss, acc =>
    if acc.length + s.length > maxLen then acc
    else summaryAccum maxLen ss (acc ++ s ++ S ". ")

/-- Embedding of `create_summary`: first paragraph if it fits; else whole-sentence
accumulation; else hard truncation with ellipsis. The `[]` paragraph branch
mirrors the source's final `return` (unreachable, since a Python `split`
result is never empty). -/
def create_summary (maxLen : Nat) (text : Str) : Str :=
  let paragraphs := pySplitPara (pyStrip text)
  match paragraphs with
  | [] => if text.length > maxLen then text.take maxLen ++ S "..." else text
  | fp0 :: _ =>
    let fp := pyStrip fp0
    if fp.length ≤ maxLen then fp
    else
      let summ := pyStrip (summaryAccum maxLen (pySplitSent fp) [])
      if summ = [] then fp.take maxLen ++ S "..." else summ

/-! ### Clause node assembly (`parse_clause_section`) -/

/-- Embedding of `parse_clause_section`: run every annotator/classifier on the clause span
and assemble the node. `oracle` is the run's `set` enumeration choice, used
at the single `list(set(external_refs))` site. -/
def parse_clause_section (oracle : List Str → List Str)
    (clause_num title content : Str) (parent : Option Str) : ClauseNode :=
  let obligations := extract_obligations content
  let related := extract_related_clauses content
  { clauseId := clause_num
    clauseNumber := clause_num
    title := title
    parentClause := parent
    level := (pySplitCh '.' clause_num).length
    summary := create_summary 300 content
    fullText := content.take 5000
    obligations := obligations
    relatedClauses := related
    keywords := extract_keywords content title
    parties := extract_parties content
    metadata :=
      { section_ := S "General Conditions"
        importance := determine_importance clause_num obligations
        category := determine_category title content
        hasSubClauses := false
        crossReferences := related
        externalDocs := oracle (extScan content) }
    subClauses := [] }

/-! ### Section boundary location and `parse_general_conditions` -/

/-- Digits of a natural number, with structural fuel (`fuel ≥ n` suffices,
since the value at least halves each step). Used for `str(int(n) + 1)`. -/
def natDigitsAux : Nat → Nat → Str
  | _, 0 => []
  | 0, _ + 1 => []
  | fuel + 1, n + 1 =>
    natDigitsAux fuel ((n + 1) / 10) ++ [Char.ofNat ('0'.toNat + (n + 1) % 10)]

/-- Python `str` of a natural number. -/
def natToStr (n : Nat) : Str := if n = 0 then S "0" else natDigitsAux n n

/-- Python `int` of a digit string. -/
def strToNat (cs : Str) : Nat :=
  cs.foldl (fun n c => n * 10 + (c.toNat - '0'.toNat)) 0

/-- Consume a case-insensitive literal. -/
def dropLitCI (pat cs : Str) : Option Str :=
  if litCI pat cs then some (cs.drop pat.length) else none

/-- Consume a case-sensitive literal. -/
def dropLitCS (pat cs : Str) : Option Str :=
  if litCS pat cs then some (cs.drop pat.length) else none

/-- Consume `\s+` (at least one whitespace character, maximal run). -/
def dropWs1 (cs : Str) : Option Str :=
  if headWs cs then some (cs.dropWhile isWs) else none

/-- Match of `(?:Clause|CLAUSE)\s+<num>\s+<escaped title>` (IGNORECASE) at the
head of `suffix`. `re.escape` makes the title a literal. -/
def matchHeadingAt (num title suffix : Str) : Bool :=
  (do
    let r1 ← dropLitCI (S "clause") suffix
    let r2 ← dropWs1 r1
    let r3 ← dropLitCS num r2
    let r4 ← dropWs1 r3
    let _ ← dropLitCI title r4
    pure ()).isSome

/-- Match of `(?:Clause|CLAUSE)\s+<num>\s+` (IGNORECASE) at the head of
`suffix` (the end-of-span search pattern). -/
def matchNextAt (num suffix : Str) : Bool :=
  (do
    let r1 ← dropLitCI (S "clause") suffix
    let r2 ← dropWs1 r1
    let r3 ← dropLitCS num r2
    let _ ← dropWs1 r3
    pure ()).isSome

/-- Embedding of `re.search` of the full clause heading: leftmost match offset. -/
def searchHeading (content num title : Str) : Option Nat :=
  (List.range (content.length + 1)).find? fun i =>
    matchHeadingAt num title (content.drop i)

/-- Embedding of `re.search` of the number-only heading pattern: leftmost match offset. -/
def searchNext (content num : Str) : Option Nat :=
  (List.range (content.length + 1)).find? fun i =>
    matchNextAt num (content.drop i)

/-- Boundary location for one clause: heading offset, then span end from the
next clause's number-only pattern searched from `start + 100`, with the
`start + 50000` / end-of-document fallback. -/
def locateClause (content num title : Str) : Option (Nat × Nat) :=
  match searchHeading content num title with
  | none => none
  | some s =>
    match searchNext (content.drop (s + 100)) (natToStr (strToNat num + 1)) with
    | some t => some (s, s + 100 + t)
    | none => some (s, min (s + 50000) content.length)

/-- The fixed `clause_titles` table of `parse_general_conditions`. -/
def clauseTitles : List (Str × Str) :=
  [(S "1", S "General Provisions"),
   (S "2", S "The Employer"),
   (S "3", S "The Engineer"),
   (S "4", S "The Contractor"),
   (S "5", S "Nominated Subcontractors"),
   (S "6", S "Staff and Labour"),
   (S "7", S "Plant, Materials and Workmanship"),
   (S "8", S "Commencement, Delays and Suspension"),
   (S "9", S "Tests on Completion"),
   (S "10", S "Employer's Taking Over"),
   (S "11", S "Defects Liability"),
   (S "12", S "Measurement and Evaluation"),
   (S "13", S "Variations and Adjustments"),
   (S "14", S "Contract Price and Payment"),
   (S "15", S "Termination by Employer"),
   (S "16", S "Suspension and Termination by Contractor"),
   (S "17", S "Risk and Responsibility"),
   (S "18", S "Insurance"),
   (S "19", S "Force Majeure"),
   (S "20", S "Claims, Disputes and Arbitration")]

/-- Embedding of `parse_general_conditions`: for each table entry in order, locate the
clause and build its node from the stripped span `content[start:end]`;
missing clauses are skipped (non-fatal). The result models the insertion-
ordered `clauses` dict. -/
def parse_general_conditions (oracle : List Str → List Str) (content : Str) :
    List (Str × ClauseNode) :=
  clauseTitles.filterMap fun q =>
    match locateClause content q.1 q.2 with
    | some (s, e) =>
      some (q.1,
        parse_clause_section oracle q.1 q.2 (pyStrip ((content.drop s).take (e - s))) none)
    | none => none

/-! ### Serialisation -/

/-- Python `str.zfill(2)` for the sign-free clause identifiers used here. -/
def zfill2 (cs : Str) : Str :=
  if cs.length ≥ 2 then cs else List.replicate (2 - cs.length) '0' ++ cs

/-- The per-clause artifact filename:
`clause-{id.replace('.','-').zfill(2)}-{title.lower().replace(' ','-')}.json`. -/
def mkFilename (clause_id title : Str) : Str :=
  S "clause-" ++ zfill2 (clause_id.map fun c => if c = '.' then '-' else c) ++
    S "-" ++ ((title.map lowerC).map fun c => if c = ' ' then '-' else c) ++
    S ".json"

/-- Embedding of `generate_json_files`: one artifact (filename, serialised node) per clause,
in dict order. Serialisation of a node to bytes is deterministic and
injective (`json.dump` of the `to_dict` image with fixed options), so the
node itself stands for the artifact's byte content. -/
def generate_json_files (clauses : List (Str × ClauseNode)) :
    List (Str × ClauseNode) :=
  clauses.map fun p => (mkFilename p.1 p.2.title, p.2)

/-- One entry of the master index. -/
structure IndexEntry where
  clauseId : Str
  title : Str
  level : Nat
  hasSubClauses : Bool
deriving DecidableEq

/-- The master index artifact (`fidic-red-book-index.json`). -/
structure MasterIndex where
  document : Str
  fullTitle : Str
  edition : Str
  isbn : Str
  totalClauses : Nat
  clauses : List IndexEntry
deriving DecidableEq

/-- Embedding of `generate_master_index`. -/
def generate_master_index (clauses : List (Str × ClauseNode)) : MasterIndex :=
  { document := S "FIDIC Red Book 1999"
    fullTitle := S "Conditions of Contract for Construction"
    edition := S "First Edition 1999"
    isbn := S "2-88432-022-9"
    totalClauses := clauses.length
    clauses := clauses.map fun p =>
      ⟨p.2.clauseId, p.2.title, p.2.level, p.2.metadata.hasSubClauses⟩ }

/-- The output artifacts of one full run (`main`): per-clause files plus the
master index. -/
structure PipelineOut where
  artifacts : List (Str × ClauseNode)
  index : MasterIndex
deriving DecidableEq

/-- One full pipeline run on an input document, under a given `set`
enumeration choice. -/
def runPipeline (oracle : List Str → List Str) (content : Str) : PipelineOut :=
  let clauses := parse_general_conditions oracle content
  { artifacts := generate_json_files clauses
    index := generate_master_index clauses }

/-! ## Theorems -/

/-! ### Shared helper lemmas -/

theorem pySortedSet_sorted (xs : List Str) :
    List.Pairwise PLe (pySortedSet xs) :=
  List.sorted_insertionSort PLe xs.dedup

theorem pySortedSet_nodup (xs : List Str) : (pySortedSet xs).Nodup :=
  (List.perm_insertionSort PLe xs.dedup).nodup_iff.mpr xs.nodup_dedup

theorem summaryAccum_length (maxLen : Nat) (ss : List Str) (acc : Str)
    (hacc : acc.length ≤ maxLen + 2) :
    (summaryAccum maxLen ss acc).length ≤ maxLen + 2 := by
  induction ss generalizing acc with
  | nil => simpa [summaryAccum] using hacc
  | cons s ss ih =>
    unfold summaryAccum
    by_cases h : acc.length + s.length > maxLen
    · rw [if_pos h]; exact hacc
    · rw [if_neg h]
      apply ih
      simp only [List.length_append, S, String.data, List.length_cons,
        List.length_nil]
      simp only [not_lt] at h
      omega

/-- The summary bound, for any `max_length`. -/
theorem create_summary_length (maxLen : Nat) (text : Str) :
    (create_summary maxLen text).length ≤ maxLen + 3 := by
  unfold create_summary
  cases hp : pySplitPara (pyStrip text) with
  | nil =>
    simp only []
    by_cases ht : text.length > maxLen
    · rw [if_pos ht]
      have h1 := List.length_take_le maxLen text
      simp only [List.length_append]
      have : (S "...").length = 3 := by decide
      omega
    · rw [if_neg ht]
      omega
  | cons fp0 ps =>
    simp only []
    by_cases hfp : (pyStrip fp0).length ≤ maxLen
    · rw [if_pos hfp]; omega
    · rw [if_neg hfp]
      by_cases hs : pyStrip (summaryAccum maxLen (pySplitSent (pyStrip fp0)) []) = []
      · rw [if_pos hs]
        have h1 := List.length_take_le maxLen (pyStrip fp0)
        simp only [List.length_append]
        have : (S "...").length = 3 := by decide
        omega
      · rw [if_neg hs]
        have h1 : (summaryAccum maxLen (pySplitSent (pyStrip fp0)) []).length ≤ maxLen + 2 :=
          summaryAccum_length maxLen _ [] (by simp)
        have h2 := pyStrip_length_le (summaryAccum maxLen (pySplitSent (pyStrip fp0)) [])
        omega

/-- C4: for every clause text span the generated summary (bound 300) has
length at most `300 + len("...") = 303`, across all branches of the
summarizer (first paragraph verbatim, whole-sentence accumulation, and hard
truncation with ellipsis). -/
theorem summary_bounded (text : Str) :
    (create_summary 300 text).length ≤ 300 + (S "...").length := by
  have h := create_summary_length 300 text
  have : (S "...").length = 3 := by decide
  omega

/-- Rank of an importance level, for the monotonicity statement. -/
def impRank (s : Str) : Nat :=
  if s = S "high" then 2 else if s = S "medium" then 1 else 0

/-- C5: the importance scorer returns `high` for key top-level clause numbers
regardless of obligations; otherwise `high`/`medium`/`low` by obligation
count thresholds 3 and 1, and (outside the key set) strictly more
obligations never yields a lower importance level. -/
theorem importance_rule (c : Str) (obs obs2 : List Obligation) :
    ((pySplitCh '.' c).headD [] ∈ keyClauses →
      determine_importance c obs = S "high") ∧
    ((pySplitCh '.' c).headD [] ∉ keyClauses →
      (obs.length > 3 → determine_importance c obs = S "high") ∧
      (obs.length > 1 → obs.length ≤ 3 → determine_importance c obs = S "medium") ∧
      (obs.length ≤ 1 → determine_importance c obs = S "low") ∧
      (obs.length ≤ obs2.length →
        impRank (determine_importance c obs) ≤ impRank (determine_importance c obs2))) := by
  constructor
  · intro hk
    unfold determine_importance
    rw [if_pos hk]
  · intro hk
    have hlow : ∀ obs3 : List Obligation, determine_importance c obs3 =
        (if obs3.length > 3 then S "high"
         else if obs3.length > 1 then S "medium" else S "low") := by
      intro obs3
      unfold determine_importance
      rw [if_neg hk]
    refine ⟨?_, ?_, ?_, ?_⟩
    · intro h3; rw [hlow, if_pos h3]
    · intro h1 h3
      rw [hlow, if_neg (by omega), if_pos h1]
    · intro h1
      rw [hlow, if_neg (by omega), if_neg (by omega)]
    · intro hle
      rw [hlow obs, hlow obs2]
      unfold impRank
      split_ifs <;> simp_all [S] <;> omega

/-- Witness for C5: concrete cases through `importance_rule` — a key clause
with no obligations is `high`, and a non-key clause is `high`/`medium`/`low`
at obligation counts 4/2/1. -/
theorem importance_rule_spot :
    determine_importance (S "4") [] = S "high" ∧
    determine_importance (S "3.5")
      (List.replicate 4 ⟨[], [], [], none⟩) = S "high" ∧
    determine_importance (S "3.5")
      (List.replicate 2 ⟨[], [], [], none⟩) = S "medium" ∧
    determine_importance (S "3.5")
      (List.replicate 1 ⟨[], [], [], none⟩) = S "low" ∧
    impRank (determine_importance (S "17")
        (List.replicate 1 ⟨[], [], [], none⟩)) ≤
      impRank (determine_importance (S "17")
        (List.replicate 2 ⟨[], [], [], none⟩)) :=
  ⟨(importance_rule (S "4") [] []).1 (by decide),
   ((importance_rule (S "3.5") (List.replicate 4 ⟨[], [], [], none⟩) []).2
      (by decide)).1 (by decide),
   (((importance_rule (S "3.5") (List.replicate 2 ⟨[], [], [], none⟩) []).2
      (by decide)).2.1) (by decide) (by decide),
   (((importance_rule (S "3.5") (List.replicate 1 ⟨[], [], [], none⟩) []).2
      (by decide)).2.2.1) (by decide),
   (((importance_rule (S "17") (List.replicate 1 ⟨[], [], [], none⟩)
      (List.replicate 2 ⟨[], [], [], none⟩)).2 (by decide)).2.2.2) (by decide)⟩

theorem extract_parties_nodup (text : Str) : (extract_parties text).Nodup :=
  pySortedSet_nodup _

/-- Helper for C6: once the first matching modality keyword of a sentence is
fixed, every obligation of that sentence carries it as action, and a detected
party guarantees at least one obligation. -/
theorem obligations_action_of_firstMod {s act : Str}
    (hfm : firstMod s = some act) :
    (∀ ob ∈ obligationsOfSentence s, ob.action = act) ∧
    (extract_parties s ≠ [] → obligationsOfSentence s ≠ []) := by
  constructor
  · intro ob hob
    unfold obligationsOfSentence at hob
    rw [hfm] at hob
    simp only at hob
    by_cases hp : extract_parties s = []
    · rw [if_pos hp] at hob
      exact absurd hob (List.not_mem_nil ob)
    · rw [if_neg hp] at hob
      obtain ⟨p, _, hpe⟩ := List.mem_map.mp hob
      rw [← hpe]
  · intro hp
    unfold obligationsOfSentence
    rw [hfm]
    simp only [if_neg hp]
    simpa [List.map_eq_nil_iff] using hp

/-- C6: for every sentence, the action assigned to its obligations is the
first matching modality keyword in the priority order
`shall, must, may, will` — whichever keyword is the earliest in that order to
be detected determines the action of every obligation of the sentence (so a
sentence containing both `shall` and `may` yields only `shall`, one
containing `must` and `may` but not `shall` yields only `must`, and so on),
and a detected party then guarantees at least one obligation; a sentence in
which no modality keyword is detected yields no obligation at all. -/
theorem obligation_action_priority (s : Str) :
    (wordSearchCI [S "shall"] s = true →
      (∀ ob ∈ obligationsOfSentence s, ob.action = S "shall") ∧
      (extract_parties s ≠ [] → obligationsOfSentence s ≠ [])) ∧
    (wordSearchCI [S "shall"] s = false → wordSearchCI [S "must"] s = true →
      (∀ ob ∈ obligationsOfSentence s, ob.action = S "must") ∧
      (extract_parties s ≠ [] → obligationsOfSentence s ≠ [])) ∧
    (wordSearchCI [S "shall"] s = false → wordSearchCI [S "must"] s = false →
      wordSearchCI [S "may"] s = true →
      (∀ ob ∈ obligationsOfSentence s, ob.action = S "may") ∧
      (extract_parties s ≠ [] → obligationsOfSentence s ≠ [])) ∧
    (wordSearchCI [S "shall"] s = false → wordSearchCI [S "must"] s = false →
      wordSearchCI [S "may"] s = false → wordSearchCI [S "will"] s = true →
      (∀ ob ∈ obligationsOfSentence s, ob.action = S "will") ∧
      (extract_parties s ≠ [] → obligationsOfSentence s ≠ [])) ∧
    (wordSearchCI [S "shall"] s = false → wordSearchCI [S "must"] s = false →
      wordSearchCI [S "may"] s = false → wordSearchCI [S "will"] s = false →
      obligationsOfSentence s = []) := by
  refine ⟨?_, ?_, ?_, ?_, ?_⟩
  · intro h1
    exact obligations_action_of_firstMod (by
      unfold firstMod modalityTable
      simp [List.find?_cons, h1])
  · intro h1 h2
    exact obligations_action_of_firstMod (by
      unfold firstMod modalityTable
      simp [List.find?_cons, h1, h2])
  · intro h1 h2 h3
    exact obligations_action_of_firstMod (by
      unfold firstMod modalityTable
      simp [List.find?_cons, h1, h2, h3])
  · intro h1 h2 h3 h4
    exact obligations_action_of_firstMod (by
      unfold firstMod modalityTable
      simp [List.find?_cons, h1, h2, h3, h4])
  · intro h1 h2 h3 h4
    have hfm : firstMod s = none := by
      unfold firstMod modalityTable
      simp [List.find?_cons, h1, h2, h3, h4]
    unfold obligationsOfSentence
    rw [hfm]

/-- Witness for C6: a `shall`+`may` sentence yields only `shall` obligations,
and a `must`+`may` sentence (no `shall`) yields only `must` obligations. -/
theorem obligation_action_priority_spot :
    obligationsOfSentence (S "The Contractor shall act and may rest") ≠ [] ∧
    ((obligationsOfSentence (S "The Contractor shall act and may rest")).headD
        ⟨[], [], [], none⟩).action = S "shall" ∧
    obligationsOfSentence (S "The Engineer must act and may rest") ≠ [] ∧
    ((obligationsOfSentence (S "The Engineer must act and may rest")).headD
        ⟨[], [], [], none⟩).action = S "must" :=
  ⟨((obligation_action_priority
      (S "The Contractor shall act and may rest")).1 (by decide)).2 (by decide),
   ((obligation_action_priority
      (S "The Contractor shall act and may rest")).1 (by decide)).1 _
      (by decide),
   ((obligation_action_priority
      (S "The Engineer must act and may rest")).2.1 (by decide)
      (by decide)).2 (by decide),
   ((obligation_action_priority
      (S "The Engineer must act and may rest")).2.1 (by decide)
      (by decide)).1 _ (by decide)⟩

/-- C7: a sentence with a detected modality and `k ≥ 1` detected parties
yields exactly `k` obligations with pairwise distinct parties and identical
action, condition and description; with no detected party it yields none. -/
theorem obligations_per_party (s : Str) (act : Str)
    (hm : firstMod s = some act) :
    (extract_parties s ≠ [] →
      (obligationsOfSentence s).length = (extract_parties s).length ∧
      (obligationsOfSentence s).Pairwise (fun o1 o2 => o1.party ≠ o2.party) ∧
      (∀ o1 ∈ obligationsOfSentence s, ∀ o2 ∈ obligationsOfSentence s,
        o1.action = o2.action ∧ o1.condition = o2.condition ∧
        o1.description = o2.description)) ∧
    (extract_parties s = [] → obligationsOfSentence s = []) := by
  constructor
  · intro hp
    unfold obligationsOfSentence
    rw [hm]
    simp only [if_neg hp]
    refine ⟨List.length_map _ _, ?_, ?_⟩
    · have hnd : (extract_parties s).Nodup := extract_parties_nodup s
      exact List.Pairwise.map _ (fun a b hab => by simpa using hab) hnd
    · intro o1 h1 o2 h2
      obtain ⟨p1, _, he1⟩ := List.mem_map.mp h1
      obtain ⟨p2, _, he2⟩ := List.mem_map.mp h2
      rw [← he1, ← he2]
      exact ⟨rfl, rfl, rfl⟩
  · intro hp
    unfold obligationsOfSentence
    rw [hm]
    simp [hp]

/-- Witness for C7: a sentence naming two parties yields two obligations. -/
theorem obligations_per_party_spot :
    firstMod (S "The Contractor shall notify the Employer") = some (S "shall") ∧
    (obligationsOfSentence (S "The Contractor shall notify the Employer")).length =
      (extract_parties (S "The Contractor shall notify the Employer")).length ∧
    (extract_parties (S "The Contractor shall notify the Employer")).length = 2 :=
  ⟨by decide,
   ((obligations_per_party (S "The Contractor shall notify the Employer")
      (S "shall") (by decide)).1 (by decide)).1,
   by decide⟩

theorem determine_importanceChk_eq (c : Str) (obs : List Obligation) :
    determine_importanceChk c obs = some (determine_importance c obs) := by
  unfold determine_importanceChk determine_importance
  cases hs : pySplitCh '.' c with
  | nil => exact absurd hs (pySplitCh_ne_nil '.' c)
  | cons t ts => simp [List.headD]

/-- Embedding of `parse_clause_section` with the Python list indexing inside
`determine_importance` made explicit (`none` models an `IndexError`); every
other annotator/classifier consists of total string operations with
explicitly guarded indexing, exactly as in the source. -/
def parse_clause_sectionChk (oracle : List Str → List Str)
    (clause_num title content : Str) (parent : Option Str) : Option ClauseNode :=
  let obligations := extract_obligations content
  let related := extract_related_clauses content
  match determine_importanceChk clause_num obligations with
  | none => none
  | some imp =>
    some
      { clauseId := clause_num
        clauseNumber := clause_num
        title := title
        parentClause := parent
        level := (pySplitCh '.' clause_num).length
        summary := create_summary 300 content
        fullText := content.take 5000
        obligations := obligations
        relatedClauses := related
        keywords := extract_keywords content title
        parties := extract_parties content
        metadata :=
          { section_ := S "General Conditions"
            importance := imp
            category := determine_category title content
            hasSubClauses := false
            crossReferences := related
            externalDocs := oracle (extScan content) }
        subClauses := [] }

/-- C9: the annotator/classifier stage is total — on every input the checked
variant (with Python's one unguarded list indexing made explicit) succeeds
and agrees with the plain embedding, so no error can originate inside the
annotators or classifiers. -/
theorem annotators_total (oracle : List Str → List Str)
    (clause_num title content : Str) (parent : Option Str) :
    parse_clause_sectionChk oracle clause_num title content parent =
      some (parse_clause_section oracle clause_num title content parent) := by
  have h := determine_importanceChk_eq clause_num (extract_obligations content)
  unfold parse_clause_sectionChk parse_clause_section
  simp only [h]

theorem wordSearchCS_exists {alts : List Str} {cs : Str}
    (h : wordSearchCS alts cs = true) :
    ∃ i, ∃ alt ∈ alts, litCS alt (cs.drop i) = true := by
  unfold wordSearchCS at h
  obtain ⟨i, _, hi⟩ := List.any_eq_true.mp h
  unfold wordAltAtCS at hi
  simp only [Bool.and_eq_true] at hi
  obtain ⟨_, halt⟩ := hi
  obtain ⟨alt, hmem, hl⟩ := List.any_eq_true.mp halt
  simp only [Bool.and_eq_true] at hl
  exact ⟨i, alt, hmem, hl.1⟩

/-- C10: party matching is case-sensitive — in a text with no upper-case
character (so party names occur only in non-canonical casing) no party
pattern can match, `extract_parties` returns the empty list, and the
obligation extractor consequently emits no `Obligation` at all. -/
theorem lowercase_no_parties (cs : Str)
    (h : ∀ c ∈ cs, c.isUpper = false) :
    extract_parties cs = [] ∧ extract_obligations cs = [] := by
  have hsearch : ∀ text : Str, (∀ c ∈ text, c.isUpper = false) →
      ∀ pr ∈ partyTable, wordSearchCS pr.2 text = false := by
    intro text htext pr hpr
    cases hb : wordSearchCS pr.2 text with
    | false => rfl
    | true =>
      exfalso
      obtain ⟨i, alt, hmem, hlit⟩ := wordSearchCS_exists hb
      simp only [partyTable, List.mem_cons, List.mem_singleton,
        List.not_mem_nil, or_false] at hpr
      have hup : ∃ a t, alt = a :: t ∧ a.isUpper = true := by
        rcases hpr with rfl | rfl | rfl | rfl | rfl <;>
          simp only [List.mem_cons, List.mem_singleton, List.not_mem_nil,
            or_false] at hmem <;>
          rcases hmem with rfl | rfl <;>
          exact ⟨_, _, rfl, by decide⟩
      obtain ⟨a, t, rfl, ha⟩ := hup
      have hmem2 : a ∈ text := List.mem_of_mem_drop (litCS_head_mem hlit)
      rw [htext a hmem2] at ha
      exact Bool.false_ne_true ha
  have hparties : ∀ text : Str, (∀ c ∈ text, c.isUpper = false) →
      extract_parties text = [] := by
    intro text htext
    unfold extract_parties
    have : partyTable.filter (fun pr => wordSearchCS pr.2 text) = [] := by
      rw [List.filter_eq_nil_iff]
      intro pr hpr
      simp [hsearch text htext pr hpr]
    rw [this]
    rfl
  refine ⟨hparties cs h, ?_⟩
  unfold extract_obligations
  rw [List.flatten_eq_nil_iff]
  intro obs hobs
  obtain ⟨s, hsmem, rfl⟩ := List.mem_map.mp hobs
  have hsl : ∀ c ∈ s, c.isUpper = false := fun c hc =>
    h c (pySplitSent_chars hsmem hc)
  unfold obligationsOfSentence
  cases hfm : firstMod s with
  | none => rfl
  | some act => simp [hparties s hsl]

/-- Witness for C10: an all-lower-case obligation sentence yields no parties
and no obligations. -/
theorem lowercase_no_parties_spot :
    ((S "the contractor shall commence the works").all fun c => !c.isUpper) = true ∧
    extract_parties (S "the contractor shall commence the works") = [] ∧
    extract_obligations (S "the contractor shall commence the works") = [] :=
  ⟨by decide,
   (lowercase_no_parties (S "the contractor shall commence the works")
      (by decide)).1,
   (lowercase_no_parties (S "the contractor shall commence the works")
      (by decide)).2⟩

theorem extGo_vocab (cs : Str) : ∀ k, ∀ m ∈ extGo k cs,
    ∃ alt ∈ extAlts, m.map lowerC = alt.map lowerC := by
  induction cs with
  | nil =>
    intro k x hx
    simp only [extGo] at hx
    exact absurd hx (List.not_mem_nil x)
  | cons c rest ih =>
    intro k x hx
    match k with
    | Nat.succ k =>
      rw [extGo] at hx
      exact ih k x hx
    | 0 =>
      rw [extGo] at hx
      cases htry : extTry (c :: rest) with
      | none =>
        rw [htry] at hx
        exact ih 0 x hx
      | some p =>
        obtain ⟨m0, r0⟩ := p
        rw [htry] at hx
        simp only [List.mem_cons] at hx
        rcases hx with rfl | hx
        · obtain ⟨alt, hmem, hci, hm, _, _⟩ := extTry_spec htry
          refine ⟨alt, hmem, ?_⟩
          rw [hm]
          exact litCI_take_lower hci
        · exact ih _ x hx

/-- Every text emitted by the external-reference scanner is a case-insensitive
match of one of the pattern's alternatives. -/
theorem extScan_vocab {cs : Str} : ∀ m ∈ extScan cs,
    ∃ alt ∈ extAlts, m.map lowerC = alt.map lowerC :=
  extGo_vocab cs 0

/-- The external-document vocabulary exactly as the claim states it. -/
def specExtVocab : List Str :=
  [S "Specification", S "Drawings", S "Bill of Quantities", S "Schedule",
   S "Contract", S "Appendix to Tender"]

/-- C3 (corrected): the `externalDocs` value — any admissible enumeration of
`set(external_refs)` — is duplicate-free, deduplicated by exact matched text
(membership coincides with the scanner's matches), and every element is a
case-insensitive match of one of the pattern's alternatives (which include
singular `Drawing`); no sortedness is guaranteed. -/
theorem externalDocs_shape (content : Str) (l : List Str)
    (h : PyEnumOf (extScan content) l) :
    l.Nodup ∧ (∀ x, x ∈ l ↔ x ∈ extScan content) ∧
    ∀ m ∈ l, ∃ alt ∈ extAlts, m.map lowerC = alt.map lowerC :=
  ⟨h.1, h.2, fun m hm => extScan_vocab m ((h.2 m).mp hm)⟩

/-- Witness for C3 (corrected), at a concrete clause span. -/
theorem externalDocs_shape_spot :
    PyEnumOf (extScan (S "as per the Specification")) [S "Specification"] ∧
    [S "Specification"].Nodup :=
  have hscan : extScan (S "as per the Specification") = [S "Specification"] := by
    decide
  have henum : PyEnumOf (extScan (S "as per the Specification"))
      [S "Specification"] :=
    ⟨by decide, fun x => by rw [hscan]⟩
  ⟨henum, (externalDocs_shape (S "as per the Specification") _ henum).1⟩

/-- Counterexample for C3 as stated: (a) on the span `"the Drawing"` the code
emits the singular match `"Drawing"`, which is not a case-insensitive literal
match of any word of the claimed vocabulary; (b) on the span
`"Specification Drawings"` the unsorted enumeration
`["Specification", "Drawings"]` is admissible for `list(set(...))`, so the
output is not guaranteed to be sorted. -/
theorem externalDocs_claim_cex :
    (PyEnumOf (extScan (S "the Drawing")) [S "Drawing"] ∧
      (specExtVocab.all fun v =>
        !(decide ((S "Drawing").map lowerC = v.map lowerC))) = true) ∧
    (PyEnumOf (extScan (S "Specification Drawings"))
        [S "Specification", S "Drawings"] ∧
      pyLe (S "Specification") (S "Drawings") = false) :=
  have h1 : extScan (S "the Drawing") = [S "Drawing"] := by decide
  have h2 : extScan (S "Specification Drawings") =
      [S "Specification", S "Drawings"] := by decide
  ⟨⟨⟨by decide, fun x => by rw [h1]⟩, by decide⟩,
   ⟨⟨by decide, fun x => by rw [h2]⟩, by decide⟩⟩

/-- A throw-away default node, used only to name elements of concrete lists
(`headD`) in closed statements. -/
def defaultNode : ClauseNode :=
  { clauseId := [], clauseNumber := [], title := [], parentClause := none,
    level := 0, summary := [], fullText := [], obligations := [],
    relatedClauses := [], keywords := [], parties := [],
    metadata := { section_ := [], importance := [], category := [],
                  hasSubClauses := false, crossReferences := [],
                  externalDocs := [] },
    subClauses := [] }

/-- Structure of a run's collection: every entry comes from a located table
entry, with the entry's number as key and `parse_clause_section` of the
stripped span as node. -/
theorem mem_run_spec {oracle : List Str → List Str} {content : Str}
    {p : Str × ClauseNode}
    (hp : p ∈ parse_general_conditions oracle content) :
    ∃ q ∈ clauseTitles, ∃ s e,
      locateClause content q.1 q.2 = some (s, e) ∧
      p = (q.1, parse_clause_section oracle q.1 q.2
            (pyStrip ((content.drop s).take (e - s))) none) := by
  obtain ⟨q, hq, hsome⟩ := List.mem_filterMap.mp hp
  cases hloc : locateClause content q.1 q.2 with
  | none => rw [hloc] at hsome; exact absurd hsome (by simp)
  | some se =>
    obtain ⟨s, e⟩ := se
    rw [hloc] at hsome
    simp only [Option.some.injEq] at hsome
    exact ⟨q, hq, s, e, hloc, hsome.symm⟩

/-- Structure of the nodes produced by a run: every node of the collection is
`parse_clause_section` applied to a located span of a table entry. -/
theorem node_of_run {oracle : List Str → List Str} {content : Str}
    {n : ClauseNode}
    (hn : n ∈ (parse_general_conditions oracle content).map Prod.snd) :
    ∃ q ∈ clauseTitles, ∃ s e,
      locateClause content q.1 q.2 = some (s, e) ∧
      n = parse_clause_section oracle q.1 q.2
            (pyStrip ((content.drop s).take (e - s))) none := by
  obtain ⟨p, hmem, hsnd⟩ := List.mem_map.mp hn
  obtain ⟨q, hq, s, e, hloc, hpe⟩ := mem_run_spec hmem
  exact ⟨q, hq, s, e, hloc, by rw [← hsnd, hpe]⟩

/-- C2 (corrected): for every node produced by the pipeline,
`relatedClauses` is sorted (Python string order) and duplicate-free; it may
however contain the clause's own identifier, since the clause's own heading
(`Clause <n> …`) lies inside the clause span and matches the cross-reference
pattern. -/
theorem relatedClauses_sorted_nodup (content : Str)
    (oracle : List Str → List Str) (n : ClauseNode)
    (hn : n ∈ (parse_general_conditions oracle content).map Prod.snd) :
    List.Pairwise PLe n.relatedClauses ∧ n.relatedClauses.Nodup := by
  obtain ⟨q, _, s, e, _, rfl⟩ := node_of_run hn
  exact ⟨pySortedSet_sorted _, pySortedSet_nodup _⟩

/-- Witness for C2 (corrected): a concrete run's (unique) node. -/
theorem relatedClauses_sorted_nodup_spot :
    (((parse_general_conditions pyDedupEnum
        (S "Clause 1 General Provisions")).map Prod.snd).headD defaultNode) ∈
      (parse_general_conditions pyDedupEnum
        (S "Clause 1 General Provisions")).map Prod.snd ∧
    List.Pairwise PLe
      (((parse_general_conditions pyDedupEnum
          (S "Clause 1 General Provisions")).map Prod.snd).headD
        defaultNode).relatedClauses :=
  ⟨by decide,
   (relatedClauses_sorted_nodup (S "Clause 1 General Provisions") pyDedupEnum
      _ (by decide)).1⟩

/-- Counterexample for C2 as stated: in a concrete run, the node of clause 1
carries its own identifier `"1"` in `relatedClauses`, because its own heading
`Clause 1 …` is part of the clause span and is captured by the
cross-reference pattern. -/
theorem relatedClauses_self_cex :
    PySetEnum pyDedupEnum ∧
    (((parse_general_conditions pyDedupEnum
        (S "Clause 1 General Provisions")).map Prod.snd).headD defaultNode) ∈
      (parse_general_conditions pyDedupEnum
        (S "Clause 1 General Provisions")).map Prod.snd ∧
    (((parse_general_conditions pyDedupEnum
        (S "Clause 1 General Provisions")).map Prod.snd).headD
          defaultNode).clauseId ∈
      (((parse_general_conditions pyDedupEnum
          (S "Clause 1 General Provisions")).map Prod.snd).headD
        defaultNode).relatedClauses :=
  ⟨pyDedupEnum_admissible, by decide, by decide⟩

theorem locateClause_none {content num title : Str}
    (h : searchHeading content num title = none) :
    locateClause content num title = none := by
  unfold locateClause
  rw [h]

theorem clauseTitles_key_inj {q q' : Str × Str} (hq : q ∈ clauseTitles)
    (hq' : q' ∈ clauseTitles) (he : q.1 = q'.1) : q = q' := by
  have hnd : (clauseTitles.map Prod.fst).Nodup := by decide
  exact List.inj_on_of_nodup_map hnd hq hq' he

/-- C8 (corrected): (a) when clause `n` is found at offset `s` and the
number-only pattern of clause `n+1` is not found from `s + 100` on, the span
ends at `min (s + 50000) (document length)`; (b) a clause whose full heading
(number and title) is found nowhere is omitted from the collection, from the
per-clause artifacts and from the master index; (c) every clause whose full
heading is found is present in the collection (missing clauses are
non-fatal). -/
theorem missing_clause_handling :
    (∀ content num title : Str, ∀ s,
      searchHeading content num title = some s →
      searchNext (content.drop (s + 100)) (natToStr (strToNat num + 1)) = none →
      locateClause content num title = some (s, min (s + 50000) content.length)) ∧
    (∀ (oracle : List Str → List Str) (content : Str) (q : Str × Str),
      q ∈ clauseTitles → searchHeading content q.1 q.2 = none →
      (∀ p ∈ parse_general_conditions oracle content, p.1 ≠ q.1) ∧
      (∀ a ∈ generate_json_files (parse_general_conditions oracle content),
        a.2.clauseId ≠ q.1) ∧
      (∀ en ∈ (generate_master_index
          (parse_general_conditions oracle content)).clauses,
        en.clauseId ≠ q.1)) ∧
    (∀ (oracle : List Str → List Str) (content : Str) (q : Str × Str),
      q ∈ clauseTitles → (searchHeading content q.1 q.2).isSome = true →
      ∃ p ∈ parse_general_conditions oracle content, p.1 = q.1) := by
  refine ⟨?_, ?_, ?_⟩
  · intro content num title s hh hn
    unfold locateClause
    rw [hh]
    dsimp only
    rw [hn]
  · intro oracle content q hq hnone
    have hkey : ∀ p ∈ parse_general_conditions oracle content, p.1 ≠ q.1 := by
      intro p hp he
      obtain ⟨q', hq', s, e, hloc, hpe⟩ := mem_run_spec hp
      have h1 : q'.1 = q.1 := by rw [← he, hpe]
      have h2 : q' = q := clauseTitles_key_inj hq' hq h1
      rw [h2, locateClause_none hnone] at hloc
      exact absurd hloc (by simp)
    refine ⟨hkey, ?_, ?_⟩
    · intro a ha
      obtain ⟨p, hp, hpa⟩ := List.mem_map.mp ha
      have hid : p.2.clauseId = p.1 := by
        obtain ⟨q', _, s, e, _, hpe⟩ := mem_run_spec hp
        rw [hpe]
        rfl
      rw [← hpa]
      simpa [hid] using hkey p hp
    · intro en hen
      obtain ⟨p, hp, hpe⟩ := List.mem_map.mp hen
      have hid : p.2.clauseId = p.1 := by
        obtain ⟨q', _, s, e, _, hpe'⟩ := mem_run_spec hp
        rw [hpe']
        rfl
      rw [← hpe]
      simpa [hid] using hkey p hp
  · intro oracle content q hq hsome
    cases hh : searchHeading content q.1 q.2 with
    | none => rw [hh] at hsome; exact absurd hsome (by simp)
    | some s =>
      have hloc : ∃ e, locateClause content q.1 q.2 = some (s, e) := by
        unfold locateClause
        rw [hh]
        dsimp only
        cases searchNext (content.drop (s + 100))
            (natToStr (strToNat q.1 + 1)) with
        | none => exact ⟨_, rfl⟩
        | some t => exact ⟨_, rfl⟩
      obtain ⟨e, hloc⟩ := hloc
      refine ⟨(q.1, parse_clause_section oracle q.1 q.2
        (pyStrip ((content.drop s).take (e - s))) none), ?_, rfl⟩
      exact List.mem_filterMap.mpr ⟨q, hq, by rw [hloc]⟩

/-- Witness for C8 (corrected): a one-clause document — clause 1 is located
with the bounded-window fallback end, and clause 8 (whose heading is absent)
is not the key of the run's single collection entry. -/
theorem missing_clause_handling_spot :
    locateClause (S "Clause 1 General Provisions") (S "1")
        (S "General Provisions") =
      some (0, min (0 + 50000) (S "Clause 1 General Provisions").length) ∧
    ((parse_general_conditions pyDedupEnum
        (S "Clause 1 General Provisions")).headD (S "0", defaultNode)).1 ≠
      S "8" :=
  ⟨missing_clause_handling.1 _ _ _ _ (by decide) (by decide),
   (missing_clause_handling.2.1 pyDedupEnum (S "Clause 1 General Provisions")
      (S "8", S "Commencement, Delays and Suspension") (by decide)
      (by decide)).1 _ (by decide)⟩

/-- Counterexample document for C8 as stated: clause 8's heading occurs
before clause 7's, so the number-only end-search for clause 7 (which starts
100 characters past clause 7's heading) misses it, while the full-document
title search still finds clause 8. -/
def cexDoc8 : Str :=
  S "Clause 8 Commencement, Delays and Suspension\nClause 7 Plant, Materials and Workmanship"

/-- Counterexample for C8 as stated: in `cexDoc8`, clause 7 is found at
offset 45 and the heading pattern of clause 8 is not found starting 100
characters later (the claim's hypothesis holds), yet clause 8 is *not*
omitted from the clause collection — its heading occurs earlier in the
document, so the collection's keys are `["7", "8"]`. -/
theorem missing_clause_cex :
    PySetEnum pyDedupEnum ∧
    (S "7", S "Plant, Materials and Workmanship") ∈ clauseTitles ∧
    searchHeading cexDoc8 (S "7") (S "Plant, Materials and Workmanship") =
      some 45 ∧
    searchNext (cexDoc8.drop (45 + 100)) (natToStr (strToNat (S "7") + 1)) =
      none ∧
    (parse_general_conditions pyDedupEnum cexDoc8).map Prod.fst =
      [S "7", S "8"] :=
  ⟨pyDedupEnum_admissible, by decide, by decide, by decide, by decide⟩

/-! ### C1: determinism of the pipeline across runs -/

/-- Normalise a node by sorting its `externalDocs` list (the only field whose
order depends on the run's `set` enumeration). -/
def normNode (n : ClauseNode) : ClauseNode :=
  { n with metadata :=
      { n.metadata with
        externalDocs := List.insertionSort PLe n.metadata.externalDocs } }

/-- Normalise a whole run's output by normalising every artifact's node. -/
def normOut (p : PipelineOut) : PipelineOut :=
  { artifacts := p.artifacts.map fun a => (a.1, normNode a.2)
    index := p.index }

theorem normNode_pcs {o1 o2 : List Str → List Str} (h1 : PySetEnum o1)
    (h2 : PySetEnum o2) (num title c : Str) (parent : Option Str) :
    normNode (parse_clause_section o1 num title c parent) =
      normNode (parse_clause_section o2 num title c parent) := by
  unfold normNode parse_clause_section
  have hext : List.insertionSort PLe (o1 (extScan c)) =
      List.insertionSort PLe (o2 (extScan c)) := by
    rw [pySortedSet_canonical (h1 (extScan c)),
      pySortedSet_canonical (h2 (extScan c))]
  simp only [hext]

theorem run_norm {o1 o2 : List Str → List Str} (h1 : PySetEnum o1)
    (h2 : PySetEnum o2) (content : Str) :
    (parse_general_conditions o1 content).map (fun p => (p.1, normNode p.2)) =
      (parse_general_conditions o2 content).map
        (fun p => (p.1, normNode p.2)) := by
  unfold parse_general_conditions
  rw [List.map_filterMap, List.map_filterMap]
  apply List.filterMap_congr
  intro q _
  cases hloc : locateClause content q.1 q.2 with
  | none => rfl
  | some se =>
    obtain ⟨s, e⟩ := se
    simp only [Option.map_some']
    rw [normNode_pcs h1 h2]

/-- C1 (corrected): two runs on the same unchanged input, under possibly
different `set` enumeration orders (different hash seeds), produce the same
artifact filenames, the same master index, and per-clause artifacts that are
byte-identical up to the order of each `externalDocs` array. -/
theorem pipeline_deterministic_up_to_set_order (content : Str)
    (o1 o2 : List Str → List Str) (h1 : PySetEnum o1) (h2 : PySetEnum o2) :
    normOut (runPipeline o1 content) = normOut (runPipeline o2 content) ∧
    (runPipeline o1 content).artifacts.map Prod.fst =
      (runPipeline o2 content).artifacts.map Prod.fst ∧
    (runPipeline o1 content).index = (runPipeline o2 content).index := by
  have hrun := run_norm h1 h2 content
  have hart : ∀ o : List Str → List Str,
      (normOut (runPipeline o content)).artifacts =
        ((parse_general_conditions o content).map
          (fun p => (p.1, normNode p.2))).map
          (fun p => (mkFilename p.1 p.2.title, p.2)) := by
    intro o
    unfold normOut runPipeline generate_json_files
    simp only [List.map_map]
    rfl
  have hfst : ∀ o : List Str → List Str,
      (runPipeline o content).artifacts.map Prod.fst =
        ((parse_general_conditions o content).map
          (fun p => (p.1, normNode p.2))).map
          (fun p => mkFilename p.1 p.2.title) := by
    intro o
    unfold runPipeline generate_json_files
    simp only [List.map_map]
    rfl
  have hidx : ∀ o : List Str → List Str,
      (runPipeline o content).index =
        generate_master_index ((parse_general_conditions o content).map
          (fun p => (p.1, normNode p.2))) := by
    intro o
    unfold runPipeline generate_master_index
    simp only [List.map_map, List.length_map]
    rfl
  have hidx2 : (runPipeline o1 content).index = (runPipeline o2 content).index := by
    rw [hidx o1, hidx o2, hrun]
  refine ⟨?_, ?_, hidx2⟩
  · have e1 := hart o1
    have e2 := hart o2
    rw [hrun] at e1
    have harts : (normOut (runPipeline o1 content)).artifacts =
        (normOut (runPipeline o2 content)).artifacts := e1.trans e2.symm
    unfold normOut at harts ⊢
    exact congrArg₂ PipelineOut.mk harts hidx2
  · rw [hfst o1, hfst o2, hrun]

/-- Witness for C1 (corrected): two admissible enumerations on a concrete
document give the same normalised output. -/
theorem pipeline_deterministic_spot :
    normOut (runPipeline pyDedupEnum (S "Clause 1 General Provisions")) =
      normOut (runPipeline pyDedupEnumRev (S "Clause 1 General Provisions")) :=
  (pipeline_deterministic_up_to_set_order (S "Clause 1 General Provisions")
    pyDedupEnum pyDedupEnumRev pyDedupEnum_admissible
    pyDedupEnumRev_admissible).1

/-- The `externalDocs` lists of a run's artifacts, in order. -/
def extDocsOf (p : PipelineOut) : List (List Str) :=
  p.artifacts.map fun a => a.2.metadata.externalDocs

/-- Counterexample for C1 as stated: on a document whose single located
clause has two distinct external-document matches, two admissible `set`
enumeration orders (two hash seeds) give different artifact bytes — the
`externalDocs` array comes out `["Specification", "Drawings"]` in one run and
`["Drawings", "Specification"]` in the other. -/
theorem pipeline_idempotence_cex :
    PySetEnum pyDedupEnum ∧ PySetEnum pyDedupEnumRev ∧
    runPipeline pyDedupEnum
        (S "Clause 1 General Provisions Specification Drawings") ≠
      runPipeline pyDedupEnumRev
        (S "Clause 1 General Provisions Specification Drawings") :=
  ⟨pyDedupEnum_admissible, pyDedupEnumRev_admissible, fun h => by
    have h2 := congrArg extDocsOf h
    rw [show extDocsOf (runPipeline pyDedupEnum
          (S "Clause 1 General Provisions Specification Drawings")) =
        [[S "Specification", S "Drawings"]] from by decide,
      show extDocsOf (runPipeline pyDedupEnumRev
          (S "Clause 1 General Provisions Specification Drawings")) =
        [[S "Drawings", S "Specification"]] from by decide] at h2
    exact absurd h2 (by decide)⟩

end Fidic
